import Mathlib

/-!
Verification of the IMAP e-mail ingestion pipeline of the CRM repository
(edge function `supabase/functions/imap-sync/index.ts`, together with its
near-duplicate inline variant that hand-parses multipart bodies).

The development shallowly embeds the pipeline's pure algorithms over
`List Char` / `List Nat` (bytes) and models the stateful parts
(database of stored e-mail rows, contact matching, HTTP handler) as
explicit state-passing functions.  JavaScript operations that can throw
(`atob`, `decodeURIComponent`) are modelled as `Option`-returning
functions, and the `try`/`catch` blocks of the source become explicit
fallbacks, so every embedded function is total.
-/

/-! ## Character utilities (JS string primitives used by the pipeline) -/

/-- ASCII/latin-1 lower-casing, as used by `String.prototype.toLowerCase`
on the header/charset strings that occur in this pipeline. -/
def toLowerList (l : List Char) : List Char := l.map Char.toLower

/-- The characters matched by the JS regex class `\s` (restricted to the
code points that can occur in mail data handled here). -/
def isJsSpace (c : Char) : Bool :=
  c = ' ' ∨ c = '\t' ∨ c = '\n' ∨ c = '\r' ∨ c = '\x0b' ∨ c = '\x0c' ∨ c = '\u00A0'

/-- `String.prototype.trim`: strip leading and trailing whitespace. -/
def trimList (l : List Char) : List Char :=
  ((l.dropWhile isJsSpace).reverse.dropWhile isJsSpace).reverse

/-- Remove every `\s` character, the model of `.replace(/\s/g, '')`. -/
def stripJsWs (l : List Char) : List Char := l.filter (fun c => ¬ isJsSpace c)

/-- Hex digit test of the regex class `[0-9A-F]` with the `i` flag. -/
def isHexDigit (c : Char) : Bool :=
  ('0' ≤ c ∧ c ≤ '9') ∨ ('A' ≤ c ∧ c ≤ 'F') ∨ ('a' ≤ c ∧ c ≤ 'f')

/-- Numeric value of a hex digit. -/
def hexVal (c : Char) : Nat :=
  if '0' ≤ c ∧ c ≤ '9' then c.toNat - '0'.toNat
  else if 'A' ≤ c ∧ c ≤ 'F' then c.toNat - 'A'.toNat + 10
  else if 'a' ≤ c ∧ c ≤ 'f' then c.toNat - 'a'.toNat + 10
  else 0

/-- Does `pat` occur at the head of `l`? -/
def listStartsWith (l pat : List Char) : Bool :=
  decide (l.take pat.length = pat)

/-- Substring containment, the model of `String.prototype.includes`. -/
def containsSub (l pat : List Char) : Bool :=
  (List.range (l.length + 1)).any (fun i => listStartsWith (l.drop i) pat)

/-- Split on a (non-empty) separator substring, the model of
`String.prototype.split(sep)`.  `fuel` bounds the recursion; it is
instantiated with the length of the input, which always suffices because
every step consumes at least one character. -/
def splitOnSubGo (sep : List Char) (fuel : Nat) (l : List Char) (acc : List Char) :
    List (List Char) :=
  match fuel with
  | 0 => [acc.reverse ++ l]
  | fuel + 1 =>
    match l with
    | [] => [acc.reverse]
    | c :: rest =>
      if listStartsWith (c :: rest) sep then
        acc.reverse :: splitOnSubGo sep fuel ((c :: rest).drop sep.length) []
      else
        splitOnSubGo sep fuel rest (c :: acc)

/-- `String.prototype.split` with a non-empty string separator. -/
def splitOnSub (l sep : List Char) : List (List Char) :=
  splitOnSubGo sep l.length l []

/-! ## Base64 (`atob`), modelled after WHATWG forgiving-base64 -/

/-- Value of a base64 alphabet character. -/
def b64Val (c : Char) : Option Nat :=
  if 'A' ≤ c ∧ c ≤ 'Z' then some (c.toNat - 'A'.toNat)
  else if 'a' ≤ c ∧ c ≤ 'z' then some (c.toNat - 'a'.toNat + 26)
  else if '0' ≤ c ∧ c ≤ '9' then some (c.toNat - '0'.toNat + 52)
  else if c = '+' then some 62
  else if c = '/' then some 63
  else none

/-- Decode 6-bit groups (padding already stripped) into bytes. -/
def b64Groups : List Char → Option (List Nat)
  | [] => some []
  | [_] => none
  | [c1, c2] => do
    let v1 ← b64Val c1
    let v2 ← b64Val c2
    pure [v1 * 4 + v2 / 16]
  | [c1, c2, c3] => do
    let v1 ← b64Val c1
    let v2 ← b64Val c2
    let v3 ← b64Val c3
    pure [v1 * 4 + v2 / 16, (v2 % 16) * 16 + v3 / 4]
  | c1 :: c2 :: c3 :: c4 :: rest => do
    let v1 ← b64Val c1
    let v2 ← b64Val c2
    let v3 ← b64Val c3
    let v4 ← b64Val c4
    let tl ← b64Groups rest
    pure ([v1 * 4 + v2 / 16, (v2 % 16) * 16 + v3 / 4, (v3 % 4) * 64 + v4] ++ tl)

/-- Model of `atob`: remove ASCII whitespace, strip up to two trailing
`=` padding characters when the length is a multiple of four, reject a
remaining length of 1 mod 4 or any character outside the alphabet, and
decode to the list of bytes of the resulting binary string.  `none`
models the `InvalidCharacterError` exception. -/
def atobModel (l : List Char) : Option (List Nat) :=
  let d := stripJsWs l
  let d2 := if d.length % 4 = 0 then
      match d.reverse with
      | '=' :: '=' :: r => r.reverse
      | '=' :: r => r.reverse
      | _ => d
    else d
  if d2.contains '=' then none
  else if d2.length % 4 = 1 then none
  else b64Groups d2

/-! ## UTF-8 decoding (`TextDecoder` / `decodeURIComponent`) -/

/-- Is `b` a UTF-8 continuation byte? -/
def isContByte (b : Nat) : Bool := 0x80 ≤ b ∧ b ≤ 0xbf

/-- One UTF-8 decoding step: decode a scalar value from the head of the
byte list, returning the scalar (`none` for an invalid sequence) and the
number of bytes consumed (at least one). -/
def utf8Step (b : Nat) (rest : List Nat) : Option Nat × Nat :=
  if b < 0x80 then (some b, 1)
  else if 0xc2 ≤ b ∧ b ≤ 0xdf then
    match rest with
    | b2 :: _ =>
      if isContByte b2 then (some ((b - 0xc0) * 64 + (b2 - 0x80)), 2)
      else (none, 1)
    | [] => (none, 1)
  else if 0xe0 ≤ b ∧ b ≤ 0xef then
    match rest with
    | b2 :: b3 :: _ =>
      if isContByte b2 ∧ isContByte b3 then
        let v := (b - 0xe0) * 4096 + (b2 - 0x80) * 64 + (b3 - 0x80)
        if 0x800 ≤ v ∧ ¬ (0xd800 ≤ v ∧ v ≤ 0xdfff) then (some v, 3) else (none, 1)
      else (none, 1)
    | _ => (none, 1)
  else if 0xf0 ≤ b ∧ b ≤ 0xf4 then
    match rest with
    | b2 :: b3 :: b4 :: _ =>
      if isContByte b2 ∧ isContByte b3 ∧ isContByte b4 then
        let v := (b - 0xf0) * 262144 + (b2 - 0x80) * 4096 + (b3 - 0x80) * 64 + (b4 - 0x80)
        if 0x10000 ≤ v ∧ v ≤ 0x10ffff then (some v, 4) else (none, 1)
      else (none, 1)
    | _ => (none, 1)
  else (none, 1)

/-- Lossy UTF-8 decoding, the model of `new TextDecoder('utf-8').decode`:
invalid sequences produce U+FFFD replacement characters. -/
def utf8Lossy : Nat → List Nat → List Char
  | 0, _ => []
  | _, [] => []
  | fuel + 1, b :: rest =>
    match utf8Step b rest with
    | (some v, k) => Char.ofNat v :: utf8Lossy fuel ((b :: rest).drop k)
    | (none, k) => '�' :: utf8Lossy fuel ((b :: rest).drop k)

/-- Lossy UTF-8 decoding of a byte list. -/
def utf8DecodeLossy (bytes : List Nat) : List Char := utf8Lossy bytes.length bytes

/-- Strict UTF-8 decoding: `none` on any invalid sequence. -/
def utf8Strict : Nat → List Nat → Option (List Char)
  | 0, l => if l.isEmpty then some [] else none
  | _, [] => some []
  | fuel + 1, b :: rest =>
    match utf8Step b rest with
    | (some v, k) => (utf8Strict fuel ((b :: rest).drop k)).map (Char.ofNat v :: ·)
    | (none, _) => none

/-- `String.fromCharCode` applied pointwise: reinterpret bytes as code
units (latin-1 view of a binary string). -/
def fromCharCodes (bytes : List Nat) : List Char := bytes.map Char.ofNat

/-- Model of `decodeURIComponent`: copy ordinary characters, decode
maximal runs of `%XX` escapes as strict UTF-8; `none` models the
`URIError` exception. -/
def percentRun : Nat → List Char → Option (List Nat × List Char)
  | 0, l => some ([], l)
  | fuel + 1, l =>
    match l with
    | '%' :: h1 :: h2 :: rest =>
      if isHexDigit h1 ∧ isHexDigit h2 then
        (percentRun fuel rest).map (fun p => ((hexVal h1 * 16 + hexVal h2) :: p.1, p.2))
      else none
    | '%' :: _ => none
    | rest => some ([], rest)

/-- Worker for `percentDecode`. -/
def percentGo : Nat → List Char → Option (List Char)
  | 0, l => if l.isEmpty then some [] else none
  | _, [] => some []
  | fuel + 1, c :: rest =>
    if c = '%' then do
      let (bytes, rest2) ← percentRun (fuel + 1) (c :: rest)
      let s ← utf8Strict bytes.length bytes
      let tl ← percentGo fuel rest2
      pure (s ++ tl)
    else do
      let tl ← percentGo fuel rest
      pure (c :: tl)

/-- Model of `decodeURIComponent`. -/
def percentDecode (l : List Char) : Option (List Char) := percentGo l.length l

/-! ## The MIME encoded-word decoder (`decodeMimeSubject`, index.ts 11-62) -/

/-- Quoted-printable step 1, `.replace(/_/g, ' ')`. -/
def qpUnderscore (l : List Char) : List Char :=
  l.map (fun c => if c = '_' then ' ' else c)

/-- Quoted-printable step 2, `.replace(/=([0-9A-F]{2})/gi, ...)` turning
each hex escape into the character with that char code. -/
def qpHexDecode : List Char → List Char
  | '=' :: c1 :: c2 :: rest =>
    if isHexDigit c1 ∧ isHexDigit c2 then
      Char.ofNat (hexVal c1 * 16 + hexVal c2) :: qpHexDecode rest
    else '=' :: qpHexDecode (c1 :: c2 :: rest)
  | c :: rest => c :: qpHexDecode rest
  | [] => []

/-- Quoted-printable step 3, `.replace(/=\r?\n/g, '')` removing soft
line breaks. -/
def qpSoftBreaks : List Char → List Char
  | '=' :: '\r' :: '\n' :: rest => qpSoftBreaks rest
  | '=' :: '\n' :: rest => qpSoftBreaks rest
  | c :: rest => c :: qpSoftBreaks rest
  | [] => []

/-- `.replace(/=\?/g, '%')`, the residual-escape preprocessing of the
Q branch. -/
def eqQmarkToPercent : List Char → List Char
  | '=' :: '?' :: rest => '%' :: eqQmarkToPercent rest
  | c :: rest => c :: eqQmarkToPercent rest
  | [] => []

/-- `charset.toLowerCase().includes('utf-8') ||
charset.toLowerCase().includes('utf8')`. -/
def isUtf8Charset (charset : List Char) : Bool :=
  containsSub (toLowerList charset) "utf-8".toList ∨
    containsSub (toLowerList charset) "utf8".toList

/-- The raw text of an encoded word, reconstructing the regex match
`=?charset?e?text?=` (used as the fallback when decoding fails). -/
def mimeWordText (charset : List Char) (e : Char) (text : List Char) : List Char :=
  '=' :: '?' :: charset ++ '?' :: e :: '?' :: text ++ ['?', '=']

/-- The replacement callback of `decodeMimeSubject`: decode one matched
encoded word.  The `try`/`catch` that returns the original match when
`atob` throws becomes the `none` fallback of `atobModel`; the inner
`try`/`catch` of the Q branch returns the partially decoded text when
`decodeURIComponent` fails. -/
def decodeWordRepl (charset : List Char) (e : Char) (text : List Char) : List Char :=
  if e = 'B' ∨ e = 'b' then
    match atobModel (stripJsWs text) with
    | none => mimeWordText charset e text
    | some bytes =>
      if isUtf8Charset charset then utf8DecodeLossy bytes else fromCharCodes bytes
  else if e = 'Q' ∨ e = 'q' then
    let decoded := qpSoftBreaks (qpHexDecode (qpUnderscore text))
    if isUtf8Charset charset then
      match percentDecode (eqQmarkToPercent decoded) with
      | some s => s
      | none => decoded
    else decoded
  else mimeWordText charset e text

/-- Try to match the regex `=\?([^?]+)\?([BQbq])\?([^?]+)\?=` at the
head of `l`, returning charset, encoding letter, payload text and the
remaining input. -/
def encWordAt (l : List Char) : Option (List Char × Char × List Char × List Char) :=
  match l with
  | '=' :: '?' :: rest =>
    let cs := rest.takeWhile (fun c => c ≠ '?')
    if cs.isEmpty then none
    else
      match rest.drop cs.length with
      | '?' :: e :: '?' :: rest2 =>
        if e = 'B' ∨ e = 'Q' ∨ e = 'b' ∨ e = 'q' then
          let t := rest2.takeWhile (fun c => c ≠ '?')
          if t.isEmpty then none
          else
            match rest2.drop t.length with
            | '?' :: '=' :: rest3 => some (cs, e, t, rest3)
            | _ => none
        else none
      | _ => none
  | _ => none

/-- Global-replace scan of `encoded.replace(mimeWordPattern, callback)`:
at each position either replace a match and continue after it, or copy
one character.  `fuel` is instantiated with the input length, which
suffices because every step consumes at least one character. -/
def decodeMimeScan : Nat → List Char → List Char
  | 0, l => l
  | fuel + 1, l =>
    match encWordAt l with
    | some (cs, e, t, rest) => decodeWordRepl cs e t ++ decodeMimeScan fuel rest
    | none =>
      match l with
      | [] => []
      | c :: rest => c :: decodeMimeScan fuel rest

/-- `decodeMimeSubject` (index.ts lines 11-62): decode every MIME
encoded word `=?charset?encoding?text?=` in a subject header. -/
def decodeMimeSubject (encoded : List Char) : List Char :=
  decodeMimeScan encoded.length encoded

/-! ## Claims C2 and C9: encoded-word decoder behaviour -/

/-- Claim C2, behaviour of the code at the spec's round-trip examples:
the base64 example decodes to "Hello" as claimed, but the
quoted-printable example decodes to the mojibake "CafÃ©" — the
`=C3`/`=A9` escapes are each turned into their own character by
`String.fromCharCode` before the percent-style pass (which replaces the
then-nonexistent sequence `=?`), so the two-byte UTF-8 sequence is never
reinterpreted as "é" and the result differs from the claimed "Café". -/
theorem claim_C2_behaviour :
    decodeMimeSubject "=?utf-8?B?SGVsbG8=?=".toList = "Hello".toList ∧
    decodeMimeSubject "=?utf-8?Q?Caf=C3=A9?=".toList = "CafÃ©".toList ∧
    decodeMimeSubject "=?utf-8?Q?Caf=C3=A9?=".toList ≠ "Café".toList := by
  refine ⟨by decide, by decide, by decide⟩

/-- Claim C9: the malformed input `=?broken?=` does not match the
encoded-word pattern and is returned unchanged, and in general a matched
`B`-encoded word whose payload makes `atob` throw is replaced by itself
(the `catch` branch returns the original match).  The decoder is a total
function of its input — the model of never throwing to the caller. -/
theorem claim_C9_malformed_unchanged :
    decodeMimeSubject "=?broken?=".toList = "=?broken?=".toList ∧
    ∀ charset text : List Char, atobModel (stripJsWs text) = none →
      decodeWordRepl charset 'B' text = mimeWordText charset 'B' text := by
  refine ⟨by decide, ?_⟩
  intro charset text h
  simp [decodeWordRepl, h]

/-- Witness for claim C9's general conjunct: the token
`=?utf-8?B?!!!?=` has an invalid base64 payload, and the replacement is
the original match. -/
theorem claim_C9_witness :
    decodeWordRepl "utf-8".toList 'B' "!!!".toList =
      mimeWordText "utf-8".toList 'B' "!!!".toList :=
  claim_C9_malformed_unchanged.2 "utf-8".toList "!!!".toList (by decide)

/-! ## Multipart body extraction (inline in the raw-parsing sync variant) -/

/-- Try to match the blank-line regex `\r?\n\r?\n` at the head of the
input, returning the remaining input after the match. -/
def blankLineAt : List Char → Option (List Char)
  | '\r' :: '\n' :: '\r' :: '\n' :: rest => some rest
  | '\r' :: '\n' :: '\n' :: rest => some rest
  | '\n' :: '\r' :: '\n' :: rest => some rest
  | '\n' :: '\n' :: rest => some rest
  | _ => none

/-- Split at the first blank line (`rawMessage.match(/\r?\n\r?\n/)`,
then `substring` up to the match index and after the matched text). -/
def splitAtBlank : List Char → Option (List Char × List Char)
  | [] => none
  | c :: cs =>
    match blankLineAt (c :: cs) with
    | some rest => some ([], rest)
    | none => (splitAtBlank cs).map (fun p => (c :: p.1, p.2))

/-- Find the value of a header in a list of lines, the model of the
regex `/^Name:\s*([^\r\n]+)/im`: the first line starting with the
(case-insensitive) name and a colon, with a non-empty remainder after
skipping whitespace.  `name` is given in lower case. -/
def findHeaderLines (name : List Char) : List (List Char) → Option (List Char)
  | [] => none
  | l :: rest =>
    if listStartsWith (toLowerList l) (name ++ [':']) then
      let v := ((l.drop (name.length + 1)).dropWhile isJsSpace).takeWhile
        (fun c => c ≠ '\r' ∧ c ≠ '\n')
      if v.isEmpty then findHeaderLines name rest else some v
    else findHeaderLines name rest

/-- Value of header `name` in a header block. -/
def headerValueCI (headers name : List Char) : Option (List Char) :=
  findHeaderLines (toLowerList name) (splitOnSub headers ['\n'])

/-- The boundary parameter of a Content-Type value, the model of
`contentType.match(/boundary="?([^";\s]+)"?/i)`. -/
def boundarySearch : List Char → Option (List Char)
  | [] => none
  | c :: rest =>
    if listStartsWith (toLowerList (c :: rest)) "boundary=".toList then
      let after := (c :: rest).drop 9
      let after2 := match after with
        | '"' :: r => r
        | r => r
      let v := after2.takeWhile (fun x => x ≠ '"' ∧ x ≠ ';' ∧ ¬ isJsSpace x)
      if v.isEmpty then none else some v
    else boundarySearch rest

/-- Transfer-decoding of one body (or body part): trim, then base64 or
quoted-printable per the Content-Transfer-Encoding value (given in
lower case); a thrown `atob` error leaves the trimmed text as is. -/
def decodePartContent (enc content : List Char) : List Char :=
  let trimmed := trimList content
  if enc = "base64".toList then
    match atobModel (stripJsWs trimmed) with
    | some bytes => utf8DecodeLossy bytes
    | none => trimmed
  else if enc = "quoted-printable".toList then
    qpHexDecode (qpSoftBreaks trimmed)
  else trimmed

/-- Process one boundary-delimited fragment of a multipart body,
accumulating into the pair (bodyText, bodyHtml): empty and closing
(`--`) fragments are skipped, a fragment without a blank-line
header/content split (or with the split at index 0, which the source's
truthiness check treats as no split) is skipped, and otherwise the
decoded content is appended to `text` or `html` according to the
fragment's own Content-Type. -/
def processPart (acc : List Char × List Char) (part : List Char) :
    List Char × List Char :=
  if (trimList part).isEmpty then acc
  else if trimList part = "--".toList then acc
  else
    match splitAtBlank part with
    | none => acc
    | some (ph, pc) =>
      if ph.isEmpty then acc
      else
        let pct := toLowerList ((headerValueCI ph "content-type".toList).getD
          "text/plain".toList)
        let pEnc := toLowerList ((headerValueCI ph
          "content-transfer-encoding".toList).getD [])
        let dec := decodePartContent pEnc pc
        if containsSub pct "text/html".toList then (acc.1, acc.2 ++ dec)
        else if containsSub pct "text/plain".toList then (acc.1 ++ dec, acc.2)
        else acc

/-- Body extraction of the raw-parsing sync variant (the spec's
`extractBody`): split the raw message at the first blank line, read the
top-level Content-Type, and either split a multipart body on
`--boundary` and accumulate the decoded `text/plain` / `text/html`
fragments, or transfer-decode a single-part body into `text` or `html`.
Returns the pair (bodyText, bodyHtml); the fallback that refetches
individual body parts over the network when no raw source is available
is outside this model. -/
def extractBody (raw : List Char) : List Char × List Char :=
  match splitAtBlank raw with
  | none => ([], [])
  | some (headers, rawBody) =>
    if headers.isEmpty then ([], [])
    else
      let ct := (headerValueCI headers "content-type".toList).getD
        "text/plain".toList
      if containsSub (toLowerList ct) "multipart".toList then
        match boundarySearch ct with
        | none => ([], [])
        | some boundary =>
          (splitOnSub rawBody ('-' :: '-' :: boundary)).foldl processPart ([], [])
      else
        let enc := toLowerList ((headerValueCI headers
          "content-transfer-encoding".toList).getD [])
        let dec := decodePartContent enc rawBody
        if containsSub (toLowerList ct) "text/html".toList then ([], dec)
        else (dec, [])

/-! ## Claim C5: multipart extraction example -/

/-- The spec's synthetic raw message: boundary `XYZ`, one `text/plain`
part "Hi" and one `text/html` part "<p>Hi</p>". -/
def c5RawMessage : String :=
  "Content-Type: multipart/alternative; boundary=\"XYZ\"\r\n\r\n--XYZ\r\nContent-Type: text/plain\r\n\r\nHi\r\n--XYZ\r\nContent-Type: text/html\r\n\r\n<p>Hi</p>\r\n--XYZ--"

/-- Claim C5: on the synthetic multipart message, body extraction
returns text "Hi" and html "<p>Hi</p>": the plain part goes to `text`,
the html part to `html`, and the leading empty fragment and the closing
`--` fragment are ignored. -/
theorem claim_C5_multipart_extraction :
    extractBody c5RawMessage.toList = ("Hi".toList, "<p>Hi</p>".toList) := by
  decide

/-! ## Batch selection and pagination (index.ts 104-111 and 244-267) -/

/-- The handler's batch-size computation:
`Math.min(parseInt(batchSize || "50"), 20)` — default 50, hard ceiling
20. -/
def clampBatchSize (param : Option Nat) : Nat := min (param.getD 50) 20

/-- The offset filter of `syncEmails`: with an offset, keep only the
identifiers strictly greater than it. -/
def afterOffset (ids : List Nat) (offset : Option Nat) : List Nat :=
  match offset with
  | none => ids
  | some o => ids.filter (fun i => decide (o < i))

/-- One page of the sync pagination (index.ts 265-267): the selected
batch `idsToProcess.slice(0, batchSize)`, the flag
`hasMore = idsToProcess.length > batchSize`, and
`nextOffset = hasMore ? last of batch : undefined`. -/
def syncPage (cand : List Nat) (bs : Nat) : List Nat × Bool × Option Nat :=
  (cand.take bs, decide (bs < cand.length),
    if bs < cand.length then (cand.take bs).getLast? else none)

/-- The caller loop of the pagination contract: call `syncEmails`, and
while it reports `hasMore`, call it again with the returned
`nextOffset`; collect every selected identifier.  Each call recomputes
the candidate set from the full (static) mailbox search result, as the
code re-runs the search on every invocation.  `fuel` bounds the number
of calls; `ids.length` calls always suffice. -/
def syncLoop (ids : List Nat) (bs : Nat) : Option Nat → Nat → List Nat
  | _, 0 => []
  | off, fuel + 1 =>
    if bs < (afterOffset ids off).length then
      (afterOffset ids off).take bs ++
        syncLoop ids bs ((afterOffset ids off).take bs).getLast? fuel
    else (afterOffset ids off).take bs

/-! ## Claim C3: the batch-size ceiling -/

/-- Claim C3: whatever batch size the caller supplies, if it exceeds 20
then the effective batch size is exactly 20 and at most 20 message
identifiers are selected for processing. -/
theorem claim_C3_batch_clamped (p : Nat) (ids : List Nat) (off : Option Nat)
    (hp : 20 < p) :
    clampBatchSize (some p) = 20 ∧
      ((afterOffset ids off).take (clampBatchSize (some p))).length ≤ 20 := by
  have h : clampBatchSize (some p) = 20 := by
    simp only [clampBatchSize, Option.getD]
    omega
  refine ⟨h, ?_⟩
  rw [h]
  simp [List.length_take]

/-- Witness for claim C3 at a concrete oversized request. -/
theorem claim_C3_witness :
    clampBatchSize (some 50) = 20 ∧
      ((afterOffset (List.range 30) none).take (clampBatchSize (some 50))).length ≤ 20 :=
  claim_C3_batch_clamped 50 (List.range 30) none (by decide)

/-! ## Claim C4: hasMore / nextOffset pagination contract -/

/-- In a strictly increasing list, filtering for elements greater than
the element at index `i` yields exactly the part after index `i`. -/
theorem sorted_filter_gt (l : List Nat) (hl : l.Pairwise (· < ·)) :
    ∀ (i : Nat) (hi : i < l.length),
      l.filter (fun x => decide (l[i] < x)) = l.drop (i + 1) := by
  induction l with
  | nil => intro i hi; simp at hi
  | cons a t ih =>
    intro i hi
    rcases List.pairwise_cons.mp hl with ⟨ha, ht⟩
    cases i with
    | zero =>
      simp only [List.getElem_cons_zero]
      rw [List.filter_cons]
      have hfa : decide (a < a) = false := by simp
      rw [hfa]
      simp only [Bool.false_eq_true, if_false]
      rw [List.filter_eq_self.mpr]
      · simp
      · intro x hx
        simpa using ha x hx
    | succ i =>
      have hi' : i < t.length := by simpa using hi
      simp only [List.getElem_cons_succ]
      rw [List.filter_cons]
      have hlt : a < t[i] := ha _ (List.getElem_mem hi')
      have hfa : decide (t[i] < a) = false := by
        simp only [decide_eq_false_iff_not]
        omega
      rw [hfa]
      simp only [Bool.false_eq_true, if_false]
      rw [ih ht i hi']
      simp [List.drop_succ_cons]

/-- The last element of a nonempty selected batch is the element at
index `bs - 1` of the candidate list. -/
theorem getLast?_take_eq (l : List Nat) (bs : Nat) (h1 : 1 ≤ bs)
    (h2 : bs ≤ l.length) :
    (l.take bs).getLast? = some l[bs - 1] := by
  rw [List.getLast?_eq_getElem?]
  have hlen : (l.take bs).length = bs := by
    rw [List.length_take]
    omega
  rw [hlen, List.getElem?_take, if_pos (by omega : bs - 1 < bs),
    List.getElem?_eq_getElem (by omega)]

/-- Iterating the pagination with the returned `nextOffset` processes
exactly the remaining suffix of the (sorted) candidate identifiers. -/
theorem syncLoop_eq_drop (ids : List Nat) (bs : Nat) (hbs : 1 ≤ bs)
    (hs : ids.Pairwise (· < ·)) :
    ∀ (fuel k : Nat) (off : Option Nat),
      afterOffset ids off = ids.drop k → ids.length - k ≤ fuel →
      syncLoop ids bs off fuel = ids.drop k := by
  intro fuel
  induction fuel with
  | zero =>
    intro k off hoff hfuel
    rw [syncLoop, List.drop_eq_nil_of_le (by omega)]
  | succ fuel ih =>
    intro k off hoff hfuel
    rw [syncLoop, hoff]
    by_cases hlt : bs < (ids.drop k).length
    · rw [if_pos hlt]
      have hlen : (ids.drop k).length = ids.length - k := by simp
      have hik : k + (bs - 1) < ids.length := by omega
      have hlast : ((ids.drop k).take bs).getLast? = some (ids.drop k)[bs - 1] :=
        getLast?_take_eq _ bs hbs (by omega)
      have helem : (ids.drop k)[bs - 1] = ids[k + (bs - 1)] := List.getElem_drop ids
      have hfil : afterOffset ids (some ids[k + (bs - 1)]) = ids.drop (k + bs) := by
        show ids.filter (fun i => decide (ids[k + (bs - 1)] < i)) = ids.drop (k + bs)
        rw [sorted_filter_gt ids hs (k + (bs - 1)) hik]
        congr 1
        omega
      rw [hlast, helem, ih (k + bs) (some ids[k + (bs - 1)]) hfil (by omega),
        ← List.drop_drop bs k ids]
      exact List.take_append_drop bs (ids.drop k)
    · rw [if_neg hlt]
      exact List.take_of_length_le (by omega)

/-- Claim C4: for one invocation, `hasMore` is reported exactly when
unprocessed candidates remain after the selected batch, and under
`hasMore` the reported `nextOffset` is the last identifier of the
selected batch; consequently, for a strictly increasing (static) search
result, looping with the returned `nextOffset` until `hasMore` is false
visits every candidate identifier. -/
theorem claim_C4_pagination (ids : List Nat) (off : Option Nat) (bs fuel : Nat)
    (hbs : 1 ≤ bs) (hs : ids.Pairwise (· < ·)) (hfuel : ids.length ≤ fuel) :
    ((syncPage (afterOffset ids off) bs).2.1 = true ↔
      0 < (afterOffset ids off).length -
        (syncPage (afterOffset ids off) bs).1.length) ∧
    ((syncPage (afterOffset ids off) bs).2.1 = true →
      (syncPage (afterOffset ids off) bs).2.2 =
        ((afterOffset ids off).take bs).getLast?) ∧
    syncLoop ids bs none fuel = ids := by
  refine ⟨?_, ?_, ?_⟩
  · simp only [syncPage, List.length_take, decide_eq_true_iff]
    omega
  · intro h
    simp only [syncPage, decide_eq_true_iff] at h
    simp only [syncPage]
    rw [if_pos h]
  · have h0 : afterOffset ids none = ids.drop 0 := by simp [afterOffset]
    have := syncLoop_eq_drop ids bs hbs hs fuel 0 none h0 (by omega)
    simpa using this

/-- Witness for claim C4 at a concrete sorted mailbox. -/
theorem claim_C4_witness :
    ((syncPage (afterOffset [1, 3, 5, 7, 9] none) 2).2.1 = true ↔
      0 < (afterOffset [1, 3, 5, 7, 9] none).length -
        (syncPage (afterOffset [1, 3, 5, 7, 9] none) 2).1.length) ∧
    ((syncPage (afterOffset [1, 3, 5, 7, 9] none) 2).2.1 = true →
      (syncPage (afterOffset [1, 3, 5, 7, 9] none) 2).2.2 =
        ((afterOffset [1, 3, 5, 7, 9] none).take 2).getLast?) ∧
    syncLoop [1, 3, 5, 7, 9] 2 none 5 = [1, 3, 5, 7, 9] :=
  claim_C4_pagination [1, 3, 5, 7, 9] none 2 5 (by decide) (by decide) (by decide)

/-! ## Contact matching (index.ts 506-589) -/

/-- A CRM contact as seen by the matcher: its id and the `.email`
values of its `email_jsonb` entries. -/
structure Contact where
  id : Nat
  emails : List String
deriving DecidableEq, Repr

/-- A row of the `contactNotes` table created by the matcher. -/
structure NoteRow where
  contact_id : Nat
  text : List Char
  sales_id : Nat
deriving DecidableEq, Repr

/-- The database side effects of one `matchEmailToContacts` call:
created notes, contacts whose `last_seen` was touched, and the
`(contact_id, processed)` update applied to the stored e-mail row. -/
structure MatchEffects where
  notes : List NoteRow
  lastSeen : List Nat
  emailUpdate : Option (Nat × Bool)
deriving DecidableEq, Repr

/-- `email.toLowerCase().trim()`, the participant normalisation of
`findContactForEmail`. -/
def normalizeEmail (e : String) : String :=
  String.mk (trimList (toLowerList e.data))

/-- The jsonb containment test
`.contains("email_jsonb", JSON.stringify([{ email }]))`: some entry of
the contact's email list has exactly this address. -/
def contactHasEmail (c : Contact) (e : String) : Bool := c.emails.contains e

/-- One directory query of the matcher's loop:
`.contains(...).maybeSingle()` destructured to its `data` field — a row
is produced only when exactly one contact matches; zero matches yield
null and several matches yield an error whose `data` is null, both of
which the loop treats as "no contact". -/
def findByEmailUnique (contacts : List Contact) (e : String) : Option Contact :=
  if (contacts.filter (fun c => contactHasEmail c e)).length = 1 then
    (contacts.filter (fun c => contactHasEmail c e)).head?
  else none

/-- The participant loop of `findContactForEmail`: return the contact
of the first participant whose lookup produces a row. -/
def findFirstContact (contacts : List Contact) : List String → Option Contact
  | [] => none
  | e :: rest =>
    match findByEmailUnique contacts e with
    | some c => some c
    | none => findFirstContact contacts rest

/-- `findContactForEmail` (index.ts 507-532): normalise all
participants, then loop until the first unique directory match. -/
def findContactForEmail (contacts : List Contact) (participants : List String) :
    Option Contact :=
  findFirstContact contacts (participants.map normalizeEmail)

/-- Worker for `dedupFirst`; `fuel` bounds the recursion and the input
length always suffices because each step removes at least the head. -/
def dedupFirstGo : Nat → List String → List String
  | 0, l => l
  | _, [] => []
  | fuel + 1, a :: rest => a :: dedupFirstGo fuel (rest.filter (fun x => x ≠ a))

/-- Insertion-ordered de-duplication, the model of building the
`Set<string>` of participants (a JS `Set` keeps first occurrences in
insertion order). -/
def dedupFirst (l : List String) : List String := dedupFirstGo l.length l

/-- Modelled from the spec: the note-formatting collaborator
`getNoteContent` (imported from `../postmark/getNoteContent.ts`) is not
among the provided sources; per the spec the note content is the
subject plus a body excerpt, with the exact format owned externally.
The matcher properties verified here do not depend on the format. -/
def getNoteContent (subject bodyText : List Char) : List Char :=
  subject ++ '\n' :: bodyText.take 300

/-- `matchEmailToContacts` (index.ts 535-589): build the participant
set {from} ∪ {to...}, find the contact of the first matching
participant, and on a match create exactly one note, touch that
contact's `last_seen` and mark the e-mail row processed with
`contact_id` set; on no match, leave everything untouched.  The
function's own `try`/`catch` means it never throws to `syncEmails`. -/
def matchEmailToContacts (contacts : List Contact) (fromEmail : String)
    (toEmails : List String) (subject bodyText : List Char) (salesId : Nat) :
    MatchEffects :=
  let noteContent := getNoteContent subject bodyText
  let participants := dedupFirst (fromEmail :: toEmails)
  match findContactForEmail contacts participants with
  | some c => ⟨[⟨c.id, noteContent, salesId⟩], [c.id], some (c.id, true)⟩
  | none => ⟨[], [], none⟩

/-- The participant loop ignores a prefix of participants none of whom
has a unique directory match. -/
theorem findFirstContact_append_none (contacts : List Contact) :
    ∀ (l1 l2 : List String),
      (∀ x ∈ l1, findByEmailUnique contacts x = none) →
      findFirstContact contacts (l1 ++ l2) = findFirstContact contacts l2 := by
  intro l1
  induction l1 with
  | nil => intro l2 _; rfl
  | cons a t ih =>
    intro l2 h
    have ha : findByEmailUnique contacts a = none := h a (by simp)
    simp only [List.cons_append, findFirstContact, ha]
    exact ih l2 (fun x hx => h x (by simp [hx]))

/-- Claim C6: when the participant list (from first, then recipients,
first occurrences kept) decomposes as non-matching participants `xs`,
then a participant `p` uniquely matching contact `c`, then a tail `ys`
containing a further participant `q` matching another contact, the
matcher creates exactly one note, attached to `c`, touches only `c`'s
`last_seen`, and marks the e-mail processed with `contact_id = c.id`;
the later matching participant receives no note. -/
theorem claim_C6_first_match_wins
    (contacts : List Contact) (fromEmail : String) (toEmails : List String)
    (subject bodyText : List Char) (salesId : Nat)
    (xs ys : List String) (p q : String) (c c2 : Contact)
    (hsplit : dedupFirst (fromEmail :: toEmails) = xs ++ p :: ys)
    (hxs : ∀ x ∈ xs, findByEmailUnique contacts (normalizeEmail x) = none)
    (hp : findByEmailUnique contacts (normalizeEmail p) = some c)
    (hq : q ∈ ys)
    (hq2 : findByEmailUnique contacts (normalizeEmail q) = some c2) :
    matchEmailToContacts contacts fromEmail toEmails subject bodyText salesId =
      ⟨[⟨c.id, getNoteContent subject bodyText, salesId⟩], [c.id],
        some (c.id, true)⟩ := by
  have hfind : findContactForEmail contacts (dedupFirst (fromEmail :: toEmails)) =
      some c := by
    unfold findContactForEmail
    rw [hsplit, List.map_append, List.map_cons,
      findFirstContact_append_none contacts _ _ ?_]
    · simp [findFirstContact, hp]
    · intro x hx
      rcases List.mem_map.mp hx with ⟨y, hy, rfl⟩
      exact hxs y hy
  simp only [matchEmailToContacts, hfind]

/-- Witness for claim C6: sender matches contact 1, the recipient
matches contact 2; only contact 1 gets the note. -/
theorem claim_C6_witness :
    matchEmailToContacts [⟨1, ["a@x.com"]⟩, ⟨2, ["b@x.com"]⟩] "a@x.com"
        ["b@x.com"] "S".toList "B".toList 7 =
      ⟨[⟨1, getNoteContent "S".toList "B".toList, 7⟩], [1], some (1, true)⟩ :=
  claim_C6_first_match_wins [⟨1, ["a@x.com"]⟩, ⟨2, ["b@x.com"]⟩] "a@x.com"
    ["b@x.com"] "S".toList "B".toList 7 [] ["b@x.com"] "a@x.com" "b@x.com"
    ⟨1, ["a@x.com"]⟩ ⟨2, ["b@x.com"]⟩ (by decide) (by decide) (by decide)
    (by decide) (by decide)

/-! ## The per-message store loop of `syncEmails` (index.ts 290-467) -/

/-- A fetched mailbox message as the store loop sees it.  `failsDecode`
abstracts a message whose processing throws inside the per-message
`try` (e.g. body parsing) after the envelope/address guards; `bodyText`
is the extracted body (the extraction of this variant delegates to the
external `mailparser` library). -/
structure ImapMsg where
  seq : Nat
  uid : Option Nat
  hasEnvelope : Bool
  messageId : Option String
  fromEmail : Option String
  toEmails : List String
  subject : List Char
  bodyText : List Char
  failsDecode : Bool
deriving DecidableEq, Repr

/-- A row of the `emails` table (the fields the verified claims
depend on). -/
structure EmailRow where
  message_id : String
  imap_uid : Nat
  from_email : String
  subject : List Char
  processed : Bool
  contact_id : Option Nat
deriving DecidableEq, Repr

/-- `message.envelope.messageId || 'imap-' + seq`. -/
def msgIdOf (m : ImapMsg) : String := m.messageId.getD ("imap-" ++ toString m.seq)

/-- `message.uid || seq`. -/
def uidOf (m : ImapMsg) : Nat := m.uid.getD m.seq

/-- The envelope and address guards: a message failing them is skipped
with no error. -/
def msgValid (m : ImapMsg) : Bool :=
  m.hasEnvelope && (m.fromEmail.isSome && !m.toEmails.isEmpty)

/-- A message that passes the guards and whose processing does not
throw. -/
def msgOk (m : ImapMsg) : Bool := msgValid m && !m.failsDecode

/-- A message that passes the guards but throws during processing. -/
def msgFails (m : ImapMsg) : Bool := msgValid m && m.failsDecode

/-- The de-duplication predicate of the query
`.or('message_id.eq.<id>,imap_uid.eq.<uid>')`. -/
def rowMatches (mid : String) (uid : Nat) (r : EmailRow) : Bool :=
  decide (r.message_id = mid) || decide (r.imap_uid = uid)

/-- Number of stored rows matching the de-duplication query. -/
def countMatches (db : List EmailRow) (mid : String) (uid : Nat) : Nat :=
  (db.filter (rowMatches mid uid)).length

/-- The de-duplication lookup `.or(...).maybeSingle()` destructured to
its `data` field: a row only when exactly one row matches; several
matching rows produce an error whose `data` is null, which the code
treats like "not found" and proceeds to insert. -/
def findExisting (db : List EmailRow) (mid : String) (uid : Nat) :
    Option EmailRow :=
  if countMatches db mid uid = 1 then (db.filter (rowMatches mid uid)).head?
  else none

/-- The mutable state of one `syncEmails` run: the `emails` table, the
`contactNotes` table, and the `processed`/`errors`/`stored`/`matched`
accumulators. -/
structure SyncState where
  db : List EmailRow
  notes : List NoteRow
  processed : List String
  errors : List String
  stored : Nat
  matched : Nat
deriving DecidableEq, Repr

/-- Initial state of a run over a given `emails` table. -/
def initState (db : List EmailRow) : SyncState := ⟨db, [], [], [], 0, 0⟩

/-- One iteration of the store loop (index.ts 290-467): skip messages
without envelope or addresses; a throwing message is caught and appends
one entry to `errors`; otherwise look up an existing row by message id
or uid and skip insertion when the lookup returns a row; otherwise
insert the new row, call the matcher (whose e-mail update is applied to
the inserted row), and bump `stored` and — unconditionally after the
matcher call — `matched`.  The database insert itself is modelled as
always succeeding. -/
def processMessage (contacts : List Contact) (salesId : Nat) (st : SyncState)
    (m : ImapMsg) : SyncState :=
  if ¬ m.hasEnvelope then st
  else if ¬ (m.fromEmail.isSome && !m.toEmails.isEmpty) then st
  else if m.failsDecode then
    { st with errors := st.errors ++ ["Error processing message " ++ toString m.seq] }
  else
    match findExisting st.db (msgIdOf m) (uidOf m) with
    | some _ => { st with processed := st.processed ++ [toString m.seq] }
    | none =>
      let eff := matchEmailToContacts contacts (m.fromEmail.getD "") m.toEmails
        (decodeMimeSubject m.subject) m.bodyText salesId
      let row : EmailRow :=
        { message_id := msgIdOf m
          imap_uid := uidOf m
          from_email := m.fromEmail.getD ""
          subject := decodeMimeSubject m.subject
          processed := (match eff.emailUpdate with
            | some p => p.2
            | none => false)
          contact_id := eff.emailUpdate.map (fun p => p.1) }
      { st with
        db := st.db ++ [row]
        notes := st.notes ++ eff.notes
        stored := st.stored + 1
        matched := st.matched + 1
        processed := st.processed ++ [toString m.seq] }

/-- The whole store loop over a fetched batch. -/
def runBatch (contacts : List Contact) (salesId : Nat) (st : SyncState)
    (msgs : List ImapMsg) : SyncState :=
  msgs.foldl (processMessage contacts salesId) st

/-! ## Step lemmas for the store loop -/

/-- Decompose `msgOk`. -/
theorem msgOk_parts (m : ImapMsg) (hok : msgOk m = true) :
    m.hasEnvelope = true ∧ (m.fromEmail.isSome && !m.toEmails.isEmpty) = true ∧
      m.failsDecode = false := by
  simp only [msgOk, msgValid, Bool.and_eq_true, Bool.not_eq_true'] at hok
  exact ⟨hok.1.1, by simp [hok.1.2.1, hok.1.2.2], hok.2⟩

/-- A message failing the envelope/address guards leaves the state
untouched. -/
theorem processMessage_invalid (c : List Contact) (s : Nat) (st : SyncState)
    (m : ImapMsg) (h : msgValid m = false) :
    processMessage c s st m = st := by
  unfold processMessage
  by_cases h1 : m.hasEnvelope = true
  · rw [if_neg (by simp [h1]), if_pos]
    simp only [msgValid, h1, Bool.true_and] at h
    simp [h]
  · rw [if_pos h1]

/-- A valid message that throws is caught: one error entry is appended
and nothing else changes. -/
theorem processMessage_throws (c : List Contact) (s : Nat) (st : SyncState)
    (m : ImapMsg) (hv : msgValid m = true) (hf : m.failsDecode = true) :
    processMessage c s st m =
      { st with errors := st.errors ++ ["Error processing message " ++ toString m.seq] } := by
  simp only [msgValid, Bool.and_eq_true] at hv
  unfold processMessage
  rw [if_neg (by simp [hv.1]), if_neg (by simp [hv.2]), if_pos (by simp [hf])]

/-- A valid, non-throwing message whose de-duplication lookup finds a
unique match is only marked processed: no row is inserted. -/
theorem processMessage_skip (c : List Contact) (s : Nat) (st : SyncState)
    (m : ImapMsg) (hok : msgOk m = true)
    (hcount : countMatches st.db (msgIdOf m) (uidOf m) = 1) :
    processMessage c s st m =
      { st with processed := st.processed ++ [toString m.seq] } := by
  obtain ⟨h1, h2, h3⟩ := msgOk_parts m hok
  have hfe : findExisting st.db (msgIdOf m) (uidOf m) =
      (st.db.filter (rowMatches (msgIdOf m) (uidOf m))).head? := by
    simp [findExisting, hcount]
  simp only [countMatches] at hcount
  obtain ⟨a, ha⟩ := List.length_eq_one.mp hcount
  rw [ha] at hfe
  unfold processMessage
  rw [if_neg (by simp [h1]), if_neg (by simp [h2]), if_neg (by simp [h3]), hfe]
  rfl

/-- A valid, non-throwing message whose de-duplication lookup does not
return a unique match is inserted: the new row carries the message's
identifiers, `stored` and `matched` are bumped, and the matcher's
effects are applied. -/
theorem processMessage_insert (c : List Contact) (s : Nat) (st : SyncState)
    (m : ImapMsg) (hok : msgOk m = true)
    (hcount : countMatches st.db (msgIdOf m) (uidOf m) ≠ 1) :
    ∃ (row : EmailRow) (eff : MatchEffects),
      processMessage c s st m =
        { st with
          db := st.db ++ [row]
          notes := st.notes ++ eff.notes
          stored := st.stored + 1
          matched := st.matched + 1
          processed := st.processed ++ [toString m.seq] } ∧
      row.message_id = msgIdOf m ∧ row.imap_uid = uidOf m := by
  obtain ⟨h1, h2, h3⟩ := msgOk_parts m hok
  have hfe : findExisting st.db (msgIdOf m) (uidOf m) = none := by
    simp [findExisting, hcount]
  unfold processMessage
  rw [if_neg (by simp [h1]), if_neg (by simp [h2]), if_neg (by simp [h3]), hfe]
  exact ⟨_, _, rfl, rfl, rfl⟩

/-- Unfold one step of the batch fold. -/
theorem runBatch_cons (c : List Contact) (s : Nat) (st : SyncState)
    (m : ImapMsg) (rest : List ImapMsg) :
    runBatch c s st (m :: rest) = runBatch c s (processMessage c s st m) rest := rfl

/-! ## Fold lemmas for the store loop -/

/-- Counting de-duplication matches distributes over appended rows. -/
theorem countMatches_append (db rows : List EmailRow) (mid : String) (uid : Nat) :
    countMatches (db ++ rows) mid uid =
      countMatches db mid uid + countMatches rows mid uid := by
  simp [countMatches, List.filter_append]

/-- A row carrying one message's identifiers does not match the
de-duplication query of different identifiers. -/
theorem rowMatches_false (row : EmailRow) (mid : String) (uid : Nat)
    (h1 : row.message_id ≠ mid) (h2 : row.imap_uid ≠ uid) :
    rowMatches mid uid row = false := by
  simp [rowMatches, h1, h2]

/-- Processing messages none of whose identifiers equal the query keys
leaves that query's match count unchanged. -/
theorem runBatch_count_preserved (c : List Contact) (s : Nat) :
    ∀ (msgs : List ImapMsg) (st : SyncState) (mid : String) (uid : Nat),
      (∀ m ∈ msgs, msgIdOf m ≠ mid ∧ uidOf m ≠ uid) →
      countMatches (runBatch c s st msgs).db mid uid =
        countMatches st.db mid uid := by
  intro msgs
  induction msgs with
  | nil => intro st mid uid _; rfl
  | cons m rest ih =>
    intro st mid uid h
    rw [runBatch_cons,
      ih (processMessage c s st m) mid uid (fun m' hm' => h m' (by simp [hm']))]
    by_cases hv : msgValid m = true
    · by_cases hf : m.failsDecode = true
      · rw [processMessage_throws c s st m hv hf]
      · have hf' : m.failsDecode = false := by simpa using hf
        have hok : msgOk m = true := by simp [msgOk, hv, hf']
        by_cases hc : countMatches st.db (msgIdOf m) (uidOf m) = 1
        · rw [processMessage_skip c s st m hok hc]
        · obtain ⟨row, eff, heq, hk1, hk2⟩ := processMessage_insert c s st m hok hc
          rw [heq]
          show countMatches (st.db ++ [row]) mid uid = countMatches st.db mid uid
          rw [countMatches_append]
          have hmm := h m (by simp)
          have hrm : rowMatches mid uid row = false :=
            rowMatches_false row mid uid (by rw [hk1]; exact hmm.1)
              (by rw [hk2]; exact hmm.2)
          simp [countMatches, hrm]
    · rw [processMessage_invalid c s st m (by simpa using hv)]

/-- Over a batch of messages with pairwise different identifiers, none
of which matches a pre-existing row, the loop inserts exactly one row
per valid non-throwing message: afterwards each such message matches
exactly one stored row, and `stored` counts them. -/
theorem runBatch_fresh (c : List Contact) (s : Nat) :
    ∀ (msgs : List ImapMsg) (st : SyncState),
      msgs.Pairwise (fun m1 m2 => msgIdOf m1 ≠ msgIdOf m2 ∧ uidOf m1 ≠ uidOf m2) →
      (∀ m ∈ msgs, msgOk m = true →
        countMatches st.db (msgIdOf m) (uidOf m) = 0) →
      (∀ m ∈ msgs, msgOk m = true →
        countMatches (runBatch c s st msgs).db (msgIdOf m) (uidOf m) = 1) ∧
      (runBatch c s st msgs).stored = st.stored + msgs.countP msgOk := by
  intro msgs
  induction msgs with
  | nil => intro st _ _; exact ⟨by simp, by simp [runBatch]⟩
  | cons m rest ih =>
    intro st hpw hfresh
    rcases List.pairwise_cons.mp hpw with ⟨hm, hpw'⟩
    rw [runBatch_cons]
    by_cases hok : msgOk m = true
    · have hc0 : countMatches st.db (msgIdOf m) (uidOf m) = 0 :=
        hfresh m (by simp) hok
      obtain ⟨row, eff, heq, hk1, hk2⟩ :=
        processMessage_insert c s st m hok (by omega)
      have hdb : (processMessage c s st m).db = st.db ++ [row] := by rw [heq]
      have hst : (processMessage c s st m).stored = st.stored + 1 := by rw [heq]
      have hfresh' : ∀ m' ∈ rest, msgOk m' = true →
          countMatches (processMessage c s st m).db (msgIdOf m') (uidOf m') = 0 := by
        intro m' hm' hok'
        rw [hdb, countMatches_append]
        have hne := hm m' hm'
        have hrm : rowMatches (msgIdOf m') (uidOf m') row = false :=
          rowMatches_false row (msgIdOf m') (uidOf m') (by rw [hk1]; exact hne.1)
            (by rw [hk2]; exact hne.2)
        have hz := hfresh m' (by simp [hm']) hok'
        have h1r : countMatches [row] (msgIdOf m') (uidOf m') = 0 := by
          simp [countMatches, hrm]
        rw [hz, h1r]
      obtain ⟨ihc, ihs⟩ := ih (processMessage c s st m) hpw' hfresh'
      refine ⟨?_, ?_⟩
      · intro m' hm' hok'
        rcases List.mem_cons.mp hm' with rfl | hm''
        · rw [runBatch_count_preserved c s rest (processMessage c s st m')
            (msgIdOf m') (uidOf m')
            (fun m'' h'' => ⟨(hm m'' h'').1.symm, (hm m'' h'').2.symm⟩),
            hdb, countMatches_append, hc0]
          have h1r : countMatches [row] (msgIdOf m') (uidOf m') = 1 := by
            simp [countMatches, rowMatches, hk1]
          rw [h1r]
        · exact ihc m' hm'' hok'
      · rw [ihs, hst, List.countP_cons]
        simp [hok]
        omega
    · have hok' : msgOk m = false := by simpa using hok
      have hstep : (processMessage c s st m).db = st.db ∧
          (processMessage c s st m).stored = st.stored := by
        by_cases hv : msgValid m = true
        · have hf : m.failsDecode = true := by
            by_contra hf
            have hf' : m.failsDecode = false := by simpa using hf
            simp [msgOk, hv, hf'] at hok'
          rw [processMessage_throws c s st m hv hf]
          exact ⟨rfl, rfl⟩
        · rw [processMessage_invalid c s st m (by simpa using hv)]
          exact ⟨rfl, rfl⟩
      have hfresh' : ∀ m' ∈ rest, msgOk m' = true →
          countMatches (processMessage c s st m).db (msgIdOf m') (uidOf m') = 0 := by
        intro m' hm' hok''
        rw [hstep.1]
        exact hfresh m' (by simp [hm']) hok''
      obtain ⟨ihc, ihs⟩ := ih (processMessage c s st m) hpw' hfresh'
      refine ⟨?_, ?_⟩
      · intro m' hm' hok''
        rcases List.mem_cons.mp hm' with rfl | hm''
        · rw [hok''] at hok'
          cases hok'
        · exact ihc m' hm'' hok''
      · rw [ihs, hstep.2, List.countP_cons]
        simp [hok']

/-- When every valid non-throwing message already has a unique matching
row, the loop inserts nothing: the `emails` table is unchanged. -/
theorem runBatch_noop (c : List Contact) (s : Nat) :
    ∀ (msgs : List ImapMsg) (st : SyncState),
      (∀ m ∈ msgs, msgOk m = true →
        countMatches st.db (msgIdOf m) (uidOf m) = 1) →
      (runBatch c s st msgs).db = st.db := by
  intro msgs
  induction msgs with
  | nil => intro st _; rfl
  | cons m rest ih =>
    intro st h
    rw [runBatch_cons]
    have hstep : (processMessage c s st m).db = st.db := by
      by_cases hv : msgValid m = true
      · by_cases hf : m.failsDecode = true
        · rw [processMessage_throws c s st m hv hf]
        · have hf' : m.failsDecode = false := by simpa using hf
          have hok : msgOk m = true := by simp [msgOk, hv, hf']
          rw [processMessage_skip c s st m hok (h m (by simp) hok)]
      · rw [processMessage_invalid c s st m (by simpa using hv)]
    rw [ih (processMessage c s st m) (by rw [hstep]; exact fun m' hm' => h m' (by simp [hm'])), hstep]

/-- One error entry is accumulated per valid message that throws, and
only for those. -/
theorem runBatch_errors_len (c : List Contact) (s : Nat) :
    ∀ (msgs : List ImapMsg) (st : SyncState),
      (runBatch c s st msgs).errors.length =
        st.errors.length + msgs.countP msgFails := by
  intro msgs
  induction msgs with
  | nil => intro st; simp [runBatch]
  | cons m rest ih =>
    intro st
    rw [runBatch_cons, ih, List.countP_cons]
    by_cases hv : msgValid m = true
    · by_cases hf : m.failsDecode = true
      · rw [processMessage_throws c s st m hv hf]
        have hmf : msgFails m = true := by simp [msgFails, hv, hf]
        simp [hmf]
        omega
      · have hf' : m.failsDecode = false := by simpa using hf
        have hok : msgOk m = true := by simp [msgOk, hv, hf']
        have hmf : msgFails m = false := by simp [msgFails, hf']
        by_cases hc : countMatches st.db (msgIdOf m) (uidOf m) = 1
        · rw [processMessage_skip c s st m hok hc]
          simp [hmf]
        · obtain ⟨row, eff, heq, _, _⟩ := processMessage_insert c s st m hok hc
          rw [heq]
          simp [hmf]
    · rw [processMessage_invalid c s st m (by simpa using hv)]
      have hmf : msgFails m = false := by
        simp only [msgFails]
        simp [by simpa using hv]
      simp [hmf]

/-- The `matched` counter moves in lockstep with `stored`: both are
bumped exactly on insertion. -/
theorem runBatch_matched_stored (c : List Contact) (s : Nat) :
    ∀ (msgs : List ImapMsg) (st : SyncState),
      st.matched = st.stored →
      (runBatch c s st msgs).matched = (runBatch c s st msgs).stored := by
  intro msgs
  induction msgs with
  | nil => intro st h; exact h
  | cons m rest ih =>
    intro st h
    rw [runBatch_cons]
    apply ih
    by_cases hv : msgValid m = true
    · by_cases hf : m.failsDecode = true
      · rw [processMessage_throws c s st m hv hf]
        exact h
      · have hf' : m.failsDecode = false := by simpa using hf
        have hok : msgOk m = true := by simp [msgOk, hv, hf']
        by_cases hc : countMatches st.db (msgIdOf m) (uidOf m) = 1
        · rw [processMessage_skip c s st m hok hc]
          exact h
        · obtain ⟨row, eff, heq, _, _⟩ := processMessage_insert c s st m hok hc
          rw [heq]
          simpa using h
    · rw [processMessage_invalid c s st m (by simpa using hv)]
      exact h

/-! ## Claim C1: de-duplication and idempotence -/

/-- Claim C1 (amended): for a valid non-throwing message, no row is
inserted exactly when the de-duplication lookup finds a UNIQUE matching
row — `maybeSingle` produces an error instead of a row when two or more
rows match, and the code reads only `data`, so the check fails open.
Nevertheless, starting from an empty store, for a batch with pairwise
distinct derived message ids and uids (as in a well-formed mailbox),
each message is stored exactly once and re-running the loop over the
same batch leaves the `emails` table unchanged. -/
theorem claim_C1_dedup_idempotent (c : List Contact) (s : Nat)
    (msgs : List ImapMsg)
    (hpw : msgs.Pairwise (fun m1 m2 =>
      msgIdOf m1 ≠ msgIdOf m2 ∧ uidOf m1 ≠ uidOf m2)) :
    (∀ (st : SyncState) (m : ImapMsg), msgOk m = true →
        ((processMessage c s st m).db = st.db ↔
          countMatches st.db (msgIdOf m) (uidOf m) = 1)) ∧
    (∀ m ∈ msgs, msgOk m = true →
        countMatches (runBatch c s (initState []) msgs).db
          (msgIdOf m) (uidOf m) = 1) ∧
    (runBatch c s (initState (runBatch c s (initState []) msgs).db) msgs).db =
      (runBatch c s (initState []) msgs).db := by
  have hfresh : ∀ m ∈ msgs, msgOk m = true →
      countMatches (initState []).db (msgIdOf m) (uidOf m) = 0 :=
    fun m _ _ => rfl
  obtain ⟨hcounts, _⟩ := runBatch_fresh c s msgs (initState []) hpw hfresh
  refine ⟨?_, hcounts, ?_⟩
  · intro st m hok
    constructor
    · intro hdb
      by_contra hc
      obtain ⟨row, eff, heq, _, _⟩ := processMessage_insert c s st m hok hc
      rw [heq] at hdb
      have hlen := congrArg List.length hdb
      simp only [List.length_append, List.length_cons, List.length_nil] at hlen
      omega
    · intro hc
      rw [processMessage_skip c s st m hok hc]
  · exact runBatch_noop c s msgs (initState (runBatch c s (initState []) msgs).db)
      (fun m hm hok => hcounts m hm hok)

/-- Two stored rows, the first sharing the message id and the second
the uid of the incoming message below. -/
def c1DbTwoMatches : List EmailRow :=
  [⟨"M", 7, "x@example.com", [], false, none⟩,
   ⟨"K", 5, "y@example.com", [], false, none⟩]

/-- An incoming message matching the first row by message id and the
second row by uid. -/
def c1MsgBoth : ImapMsg :=
  ⟨3, some 5, true, some "M", some "a@example.com", ["b@example.com"], [], [],
    false⟩

/-- Counterexample to claim C1 as stated: rows matching the incoming
message by `message_id` (and by `imap_uid`) are already stored, yet a
new row is inserted — with two matching rows the `maybeSingle` lookup
errors out, `data` is null, and the insert proceeds. -/
theorem claim_C1_counterexample :
    (∃ r ∈ c1DbTwoMatches,
      rowMatches (msgIdOf c1MsgBoth) (uidOf c1MsgBoth) r = true) ∧
    countMatches c1DbTwoMatches (msgIdOf c1MsgBoth) (uidOf c1MsgBoth) = 2 ∧
    (processMessage [] 1 (initState c1DbTwoMatches) c1MsgBoth).db ≠
      c1DbTwoMatches ∧
    (processMessage [] 1 (initState c1DbTwoMatches) c1MsgBoth).db.length = 3 := by
  decide

/-- A two-message mailbox with distinct identifiers. -/
def c1TwoMsgs : List ImapMsg :=
  [⟨1, some 10, true, some "A", some "a@x.com", ["b@x.com"], [], [], false⟩,
   ⟨2, some 11, true, some "B", some "a@x.com", ["b@x.com"], [], [], false⟩]

/-- Witness for claim C1's amended statement at a concrete mailbox:
a second run over the same two messages adds no rows, and the first
message matches exactly one stored row. -/
theorem claim_C1_witness :
    (runBatch [] 1 (initState (runBatch [] 1 (initState []) c1TwoMsgs).db)
        c1TwoMsgs).db =
      (runBatch [] 1 (initState []) c1TwoMsgs).db ∧
    countMatches (runBatch [] 1 (initState []) c1TwoMsgs).db
      (msgIdOf ⟨1, some 10, true, some "A", some "a@x.com", ["b@x.com"], [], [],
        false⟩)
      (uidOf ⟨1, some 10, true, some "A", some "a@x.com", ["b@x.com"], [], [],
        false⟩) = 1 := by
  have h := claim_C1_dedup_idempotent [] 1 c1TwoMsgs (by decide)
  exact ⟨h.2.2, h.2.1 _ (by decide) (by decide)⟩

/-! ## Claim C8: partial-failure isolation -/

/-- Claim C8: over a batch with pairwise distinct identifiers starting
from an empty store, each valid throwing message contributes exactly
one error entry, and the remaining messages are still stored — one row
per valid non-throwing message, `stored` counting exactly those. -/
theorem claim_C8_partial_failure (c : List Contact) (s : Nat)
    (msgs : List ImapMsg)
    (hpw : msgs.Pairwise (fun m1 m2 =>
      msgIdOf m1 ≠ msgIdOf m2 ∧ uidOf m1 ≠ uidOf m2)) :
    (runBatch c s (initState []) msgs).errors.length = msgs.countP msgFails ∧
    (runBatch c s (initState []) msgs).stored = msgs.countP msgOk ∧
    ∀ m ∈ msgs, msgOk m = true →
      countMatches (runBatch c s (initState []) msgs).db
        (msgIdOf m) (uidOf m) = 1 := by
  have hfresh : ∀ m ∈ msgs, msgOk m = true →
      countMatches (initState []).db (msgIdOf m) (uidOf m) = 0 :=
    fun m _ _ => rfl
  obtain ⟨hcounts, hstored⟩ := runBatch_fresh c s msgs (initState []) hpw hfresh
  have herr := runBatch_errors_len c s msgs (initState [])
  exact ⟨by simpa [initState] using herr, by simpa [initState] using hstored,
    hcounts⟩

/-- The spec's five-message batch: message #3 throws during decode. -/
def c8Batch : List ImapMsg :=
  [⟨1, some 1, true, some "M1", some "a@x.com", ["b@x.com"], [], [], false⟩,
   ⟨2, some 2, true, some "M2", some "a@x.com", ["b@x.com"], [], [], false⟩,
   ⟨3, some 3, true, some "M3", some "a@x.com", ["b@x.com"], [], [], true⟩,
   ⟨4, some 4, true, some "M4", some "a@x.com", ["b@x.com"], [], [], false⟩,
   ⟨5, some 5, true, some "M5", some "a@x.com", ["b@x.com"], [], [], false⟩]

/-- Witness for claim C8: in the five-message batch with #3 throwing,
exactly one error is reported, four messages are stored, and message #4
in particular has exactly one row. -/
theorem claim_C8_witness :
    (runBatch [] 1 (initState []) c8Batch).errors.length = 1 ∧
    (runBatch [] 1 (initState []) c8Batch).stored = 4 ∧
    countMatches (runBatch [] 1 (initState []) c8Batch).db
      (msgIdOf ⟨4, some 4, true, some "M4", some "a@x.com", ["b@x.com"], [], [],
        false⟩)
      (uidOf ⟨4, some 4, true, some "M4", some "a@x.com", ["b@x.com"], [], [],
        false⟩) = 1 := by
  have h := claim_C8_partial_failure [] 1 c8Batch (by decide)
  exact ⟨h.1.trans (by decide), h.2.1.trans (by decide),
    h.2.2 _ (by decide) (by decide)⟩

/-! ## The HTTP handler and `syncEmails` top level (index.ts 77-150, 152-503) -/

/-- The outcome of the IMAP session underlying one `syncEmails` run. -/
inductive MailboxOutcome where
  | connectFail (msg : String)
  | authFail (msg : String)
  | ok (mailbox : List ImapMsg)
deriving DecidableEq, Repr

/-- The result object returned by `syncEmails`. -/
structure SyncResult where
  processed : List String
  errors : List String
  totalFound : Nat
  nextOffset : Option Nat
  hasMore : Bool
  stored : Nat
  matched : Nat
deriving DecidableEq, Repr

/-- `syncEmails` (index.ts 152-503): resolve the owning sales user, run
the IMAP session, paginate the search result, fetch the selected
sequence range (a range fetch, which may return messages between the
endpoints), run the store loop, and return the summary with the updated
`emails` table.  A connection or authentication failure is caught by
the function's own `try`/`catch`, which pushes "IMAP error: ..." into
the (empty so far) error list and returns a normal result object — it
does not rethrow. -/
def syncEmails (contacts : List Contact) (salesUsers : List Nat)
    (outcome : MailboxOutcome) (off : Option Nat) (bs : Nat)
    (db : List EmailRow) : SyncResult × List EmailRow :=
  if salesUsers.isEmpty then
    (⟨[], ["No active sales users found in database"], 0, none, false, 0, 0⟩, db)
  else
    match outcome with
    | .connectFail e => (⟨[], ["IMAP error: " ++ e], 0, none, false, 0, 0⟩, db)
    | .authFail e => (⟨[], ["IMAP error: " ++ e], 0, none, false, 0, 0⟩, db)
    | .ok mailbox =>
      let seqs := mailbox.map (fun m => m.seq)
      if seqs.isEmpty then (⟨[], [], 0, none, false, 0, 0⟩, db)
      else
        let cand := afterOffset seqs off
        if cand.isEmpty then (⟨[], [], seqs.length, none, false, 0, 0⟩, db)
        else
          let batch := cand.take bs
          let fetched := mailbox.filter (fun m =>
            decide (batch.headD 0 ≤ m.seq) && decide (m.seq ≤ batch.getLastD 0))
          let st := runBatch contacts (salesUsers.headD 0) (initState db) fetched
          (⟨st.processed, st.errors, seqs.length,
            if bs < cand.length then batch.getLast? else none,
            decide (bs < cand.length), st.stored, st.matched⟩, st.db)

/-- An HTTP response of the edge function: status code and the JSON
body fields the verified claims mention. -/
structure HttpResponse where
  status : Nat
  success : Bool
  errors : List String
  stored : Nat
  matched : Nat
deriving DecidableEq, Repr

/-- The `Deno.serve` handler on the sync path (index.ts 77-150): an
optional bearer-token check (401 on mismatch when a token is
configured), then `syncEmails` with the clamped batch size, and a 200
response carrying the result.  Because `syncEmails` catches
connection-level failures internally and never throws, the handler's
catch-all 500 branch is reachable only by exceptions raised outside
`syncEmails`; for every mailbox outcome this embedding returns 200. -/
def handleSyncRequest (expectedAuth authHeader : Option String)
    (contacts : List Contact) (salesUsers : List Nat)
    (outcome : MailboxOutcome) (off : Option Nat) (bsParam : Option Nat)
    (db : List EmailRow) : HttpResponse × List EmailRow :=
  match expectedAuth with
  | some tok =>
    if authHeader = some ("Bearer " ++ tok) then
      let r := syncEmails contacts salesUsers outcome off
        (clampBatchSize bsParam) db
      (⟨200, true, r.1.errors, r.1.stored, r.1.matched⟩, r.2)
    else (⟨401, false, [], 0, 0⟩, db)
  | none =>
    let r := syncEmails contacts salesUsers outcome off
      (clampBatchSize bsParam) db
    (⟨200, true, r.1.errors, r.1.stored, r.1.matched⟩, r.2)

/-! ## Claim C7: response status on connection failure -/

/-- Counterexample to claim C7 as stated: a connection failure does NOT
produce a 500 response — `syncEmails` catches it and the handler
returns 200 with `success: true` and the failure inside the in-body
errors list. -/
theorem claim_C7_counterexample :
    (handleSyncRequest none none [] [1] (.connectFail "connection refused")
        none (some 20) []).1.status = 200 ∧
    (handleSyncRequest none none [] [1] (.connectFail "connection refused")
        none (some 20) []).1.success = true ∧
    (handleSyncRequest none none [] [1] (.connectFail "connection refused")
        none (some 20) []).1.errors = ["IMAP error: connection refused"] ∧
    ¬ (handleSyncRequest none none [] [1] (.connectFail "connection refused")
        none (some 20) []).1.status = 500 := by
  decide

/-- Claim C7 (amended): with no token configured, the handler answers
200 for every mailbox outcome — per-message failures arrive in-body,
and a connection or authentication failure likewise yields 200 with
`success: true` and exactly the caught "IMAP error: ..." entry in the
errors list, never 500 (the 500 branch only catches exceptions raised
outside `syncEmails`). -/
theorem claim_C7_errors_in_body (e : String) (h : Option String)
    (contacts : List Contact) (s0 : Nat) (srest : List Nat)
    (outcome : MailboxOutcome) (off : Option Nat) (bsp : Option Nat)
    (db : List EmailRow) :
    (handleSyncRequest none h contacts (s0 :: srest) outcome off bsp
        db).1.status = 200 ∧
    (handleSyncRequest none h contacts (s0 :: srest) (.connectFail e) off bsp
        db).1.errors = ["IMAP error: " ++ e] ∧
    (handleSyncRequest none h contacts (s0 :: srest) (.connectFail e) off bsp
        db).1.success = true ∧
    (handleSyncRequest none h contacts (s0 :: srest) (.authFail e) off bsp
        db).1.errors = ["IMAP error: " ++ e] := by
  refine ⟨rfl, ?_, rfl, ?_⟩ <;> simp [handleSyncRequest, syncEmails]

/-! ## Claim C10: `matched` equals `stored` -/

/-- Claim C10: every `syncEmails` result reports `matched` equal to
`stored` — the matched counter is bumped exactly once per inserted
row, immediately after the matcher call and regardless of whether any
contact matched (the quantification over arbitrary, including empty,
contact directories shows the counter does not measure actual links). -/
theorem claim_C10_matched_eq_stored (contacts : List Contact)
    (salesUsers : List Nat) (outcome : MailboxOutcome) (off : Option Nat)
    (bs : Nat) (db : List EmailRow) (c2 : List Contact) (s2 : Nat)
    (msgs : List ImapMsg) (db0 : List EmailRow) :
    (syncEmails contacts salesUsers outcome off bs db).1.matched =
      (syncEmails contacts salesUsers outcome off bs db).1.stored ∧
    (runBatch c2 s2 (initState db0) msgs).matched =
      (runBatch c2 s2 (initState db0) msgs).stored := by
  constructor
  · unfold syncEmails
    split
    · rfl
    · split
      · rfl
      · rfl
      · dsimp only
        split
        · rfl
        · split
          · rfl
          · exact runBatch_matched_stored _ _ _ _ rfl
  · exact runBatch_matched_stored c2 s2 msgs (initState db0) rfl
